import Mathlib

/-!
Verification development for the progressive tax-bracket evaluation engine
of the tax-ca repository, together with the request-validation middleware of
its REST API.

Currency amounts and rates are embedded as exact rationals (`ℚ`).  The core
library file `src/taxes/income-tax.ts` is not present in the source tree
(only its tests, documentation and API callers are), so the core functions
(`evaluateTax`, `indexTable`, `applyAbatement`, `applyCredit`,
`marginalRate`, `getFederalTaxAmount`) are modelled from the specification;
the API service (`TaxCalculationService` in `src/api/src/types/index.ts`)
and the Ajv validation middleware (`src/api/src/middleware/validation.ts`
with `src/api/src/schemas/index.ts`) are embedded from the source.
-/

namespace TaxCA

/-- The closed enumeration of the 13 provincial/territorial jurisdiction
codes used throughout the repository (`src/misc/code-types`). -/
inductive ProvinceCode
  | AB | BC | MB | NB | NL | NS | NT | NU | ON | PE | QC | SK | YT
  deriving DecidableEq, Repr

/-- Modelled from the spec: a `BracketSegment` is
`{ lowerBound, upperBound (or +infinity), marginalRate }`; an `upperBound`
of `none` stands for the unbounded top segment. -/
structure BracketSegment where
  lowerBound : ℚ
  upperBound : Option ℚ
  marginalRate : ℚ
  deriving DecidableEq, Repr

/-- Modelled from the spec: a `BracketTable` bundles the ordered segments
with the jurisdiction's base credit and credit rate. -/
structure BracketTable where
  segments : List BracketSegment
  baseCredit : ℚ
  baseCreditRate : ℚ
  deriving DecidableEq, Repr

/-- Clamp as used by the spec's bracket walk: clip `x` into the interval
`[lo, hi]`. -/
def clampQ (x lo hi : ℚ) : ℚ := max lo (min x hi)

/-- Modelled from the spec: the portion of `income` falling inside a
segment, `clamp(income, lowerBound, upperBound) - lowerBound`; an unbounded
top segment clips only from below. -/
def portionInSegment (s : BracketSegment) (income : ℚ) : ℚ :=
  (match s.upperBound with
    | some ub => clampQ income s.lowerBound ub
    | none => max s.lowerBound income) - s.lowerBound

/-- Modelled from the spec (the missing `src/taxes/income-tax.ts` bracket
evaluator): walk the segments in order and accumulate
`portionInSegment * marginalRate`.  The spec's early exit
(`stop once income <= segment.upperBound`) only skips segments whose
portion is zero in a well-formed table, so the evaluator is embedded as the
full sum. -/
def evaluateTax (segs : List BracketSegment) (income : ℚ) : ℚ :=
  (segs.map (fun s => portionInSegment s income * s.marginalRate)).sum

/-- Modelled from the spec: scale one segment's bounds by the compounded
inflation factor `(1+r)^n`; an unbounded upper limit stays unbounded. -/
def indexSegment (r : ℚ) (n : ℕ) (s : BracketSegment) : BracketSegment :=
  { lowerBound := s.lowerBound * (1 + r) ^ n
    upperBound := s.upperBound.map (fun u => u * (1 + r) ^ n)
    marginalRate := s.marginalRate }

/-- Modelled from the spec (the missing indexation function): multiply
every bound and the base credit by `(1 + inflationRate)^yearsToInflate`. -/
def indexTable (t : BracketTable) (r : ℚ) (n : ℕ) : BracketTable :=
  { segments := t.segments.map (indexSegment r n)
    baseCredit := t.baseCredit * (1 + r) ^ n
    baseCreditRate := t.baseCreditRate }

/-- The Quebec federal abatement rate (spec §3, `JurisdictionAdjustment`,
populated only for Quebec at 16.5%). -/
def abatementRate : ℚ := 165 / 1000

/-- Modelled from the spec (the missing jurisdiction adjustment layer):
`grossFederalTax * (1 - abatementRate)` for Quebec, identity elsewhere. -/
def applyAbatement (grossFederalTax : ℚ) (jurisdiction : ProvinceCode) : ℚ :=
  if jurisdiction = ProvinceCode.QC then grossFederalTax * (1 - abatementRate)
  else grossFederalTax

/-- Modelled from the spec (the missing credit application):
`max(0, tax - credit)`. -/
def applyCredit (tax credit : ℚ) : ℚ := max 0 (tax - credit)

/-- Does the segment contain the income in the sense of the spec's marginal
rate lookup, `lowerBound < income <= upperBound`? -/
def segContains (s : BracketSegment) (income : ℚ) : Bool :=
  decide (s.lowerBound < income) &&
    (match s.upperBound with
      | none => true
      | some ub => decide (income ≤ ub))

/-- Lower bound of the first segment (0 for the empty list). -/
def firstLowerBound : List BracketSegment → ℚ
  | [] => 0
  | s :: _ => s.lowerBound

/-- Marginal rate of the first segment (0 for the empty list). -/
def firstRate : List BracketSegment → ℚ
  | [] => 0
  | s :: _ => s.marginalRate

/-- Modelled from the spec (the missing marginal-rate function): the rate
of the segment whose half-open interval contains the income, falling back
to the first segment's rate when the income is at or below the lowest
bound. -/
def marginalRate (segs : List BracketSegment) (income : ℚ) : ℚ :=
  match segs.find? (fun s => segContains s income) with
  | some s => s.marginalRate
  | none => firstRate segs

/-- Embedded from `TaxCalculationService.calculateIncomeTax`
(`src/api/src/types/index.ts`):
`effectiveTaxRate = grossIncome > 0 ? totalTax / grossIncome : 0`. -/
def effectiveRate (finalTax income : ℚ) : ℚ :=
  if 0 < income then finalTax / income else 0

/-- A numeric input as the core receives it from JavaScript callers: either
a finite number or a non-finite value (`NaN`, `±Infinity`). -/
inductive NumInput
  | fin (q : ℚ)
  | nonfinite
  deriving DecidableEq, Repr

/-- Modelled from the spec: negative or non-finite income is clamped to
zero before computation. -/
def sanitizeIncome : NumInput → ℚ
  | NumInput.fin q => max 0 q
  | NumInput.nonfinite => 0

/-- Modelled from the spec (the missing `getFederalTaxAmount` pipeline):
sanitize the income, index the table, evaluate the brackets, apply the
Quebec abatement for the caller's province, then subtract the credit
floored at zero. -/
def getFederalTaxAmount (j : ProvinceCode) (t : BracketTable)
    (income : NumInput) (r : ℚ) (n : ℕ) (credit : ℚ) : ℚ :=
  applyCredit
    (applyAbatement
      (evaluateTax (indexTable t r n).segments (sanitizeIncome income)) j)
    credit

/-- Per-segment well-formedness (spec §3): non-negative bounds, a rate in
`[0,1]`, and a lower bound not exceeding the upper bound. -/
def segWF (s : BracketSegment) : Bool :=
  decide (0 ≤ s.lowerBound) && decide (0 ≤ s.marginalRate) &&
    decide (s.marginalRate ≤ 1) &&
    (match s.upperBound with
      | none => true
      | some ub => decide (s.lowerBound ≤ ub))

/-- Contiguity and termination (spec §3): each segment's upper bound is the
next segment's lower bound and the final segment is unbounded. -/
def contiguous : List BracketSegment → Bool
  | [] => true
  | [s] => decide (s.upperBound = none)
  | s :: t :: rest =>
      decide (s.upperBound = some t.lowerBound) && contiguous (t :: rest)

/-- A well-formed bracket list: nonempty, all segments well-formed, and
contiguous with an unbounded top segment. -/
def tableWF (segs : List BracketSegment) : Bool :=
  !segs.isEmpty && segs.all segWF && contiguous segs

/-- The spec's two-segment demonstration table
`[ {0, 50000, 0.15}, {50000, +inf, 0.26} ]`. -/
def demoSegs : List BracketSegment :=
  [ { lowerBound := 0, upperBound := some 50000, marginalRate := 15 / 100 },
    { lowerBound := 50000, upperBound := none, marginalRate := 26 / 100 } ]

/-! ### Helper lemmas about the bracket walk -/

/-- The portion of income inside a segment is monotone in the income. -/
theorem portionInSegment_mono (s : BracketSegment) {x y : ℚ} (hxy : x ≤ y) :
    portionInSegment s x ≤ portionInSegment s y := by
  unfold portionInSegment clampQ
  cases s.upperBound with
  | none => exact sub_le_sub_right (max_le_max le_rfl hxy) _
  | some u =>
      exact sub_le_sub_right (max_le_max le_rfl (min_le_min hxy le_rfl)) _

/-- Income at or below a segment's lower bound contributes nothing. -/
theorem portionInSegment_eq_zero (s : BracketSegment) {x : ℚ}
    (hx : x ≤ s.lowerBound) : portionInSegment s x = 0 := by
  cases hub : s.upperBound with
  | none => simp [portionInSegment, clampQ, hub, max_eq_left hx]
  | some u =>
      simp [portionInSegment, clampQ, hub,
        max_eq_left ((min_le_left x u).trans hx)]

/-- Once the income reaches a bounded segment's upper limit, the portion
saturates. -/
theorem portionInSegment_saturate (s : BracketSegment) {u x : ℚ}
    (hu : s.upperBound = some u) (hx : u ≤ x) :
    portionInSegment s x = max s.lowerBound u - s.lowerBound := by
  simp [portionInSegment, clampQ, hu, min_eq_right hx]

/-- The bracket evaluator is monotone in income when all rates are
non-negative. -/
theorem evaluateTax_mono_of_rates {segs : List BracketSegment}
    (hr : ∀ s ∈ segs, 0 ≤ s.marginalRate) {x y : ℚ} (hxy : x ≤ y) :
    evaluateTax segs x ≤ evaluateTax segs y := by
  unfold evaluateTax
  refine List.sum_le_sum ?_
  intro s hs
  exact mul_le_mul_of_nonneg_right (portionInSegment_mono s hxy) (hr s hs)

/-- Unpack the boolean per-segment well-formedness. -/
theorem segWF_spec {s : BracketSegment} (h : segWF s = true) :
    0 ≤ s.lowerBound ∧ 0 ≤ s.marginalRate ∧ s.marginalRate ≤ 1 ∧
      ∀ u, s.upperBound = some u → s.lowerBound ≤ u := by
  unfold segWF at h
  cases hub : s.upperBound with
  | none =>
      rw [hub] at h
      simp only [Bool.and_eq_true, decide_eq_true_eq] at h
      exact ⟨h.1.1.1, h.1.1.2, h.1.2, fun u hu => by simp [hub] at hu⟩
  | some ub =>
      rw [hub] at h
      simp only [Bool.and_eq_true, decide_eq_true_eq] at h
      refine ⟨h.1.1.1, h.1.1.2, h.1.2, fun u hu => ?_⟩
      have h2 : ub = u := by injection hu
      exact h2 ▸ h.2

/-- Contiguity passes to the tail of the list. -/
theorem contiguous_tail {a : BracketSegment} {l : List BracketSegment}
    (h : contiguous (a :: l) = true) : contiguous l = true := by
  cases l with
  | nil => rfl
  | cons b l' =>
      unfold contiguous at h
      exact (Bool.and_eq_true _ _ |>.mp h).2

/-- In a contiguous nonempty chain the head's upper bound is the next
segment's lower bound. -/
theorem contiguous_head_ub {a : BracketSegment} {l : List BracketSegment}
    (h : contiguous (a :: l) = true) (hl : l ≠ []) :
    a.upperBound = some (firstLowerBound l) := by
  cases l with
  | nil => exact absurd rfl hl
  | cons b l' =>
      unfold contiguous at h
      have := (Bool.and_eq_true _ _ |>.mp h).1
      rw [decide_eq_true_eq] at this
      simpa [firstLowerBound] using this

/-- Contiguity passes to any suffix. -/
theorem contiguous_append_right {l₁ l₂ : List BracketSegment}
    (h : contiguous (l₁ ++ l₂) = true) : contiguous l₂ = true := by
  induction l₁ with
  | nil => simpa using h
  | cons a l ih => exact ih (contiguous_tail (by simpa using h))

/-- In a well-formed contiguous chain the first lower bound is the least
lower bound. -/
theorem firstLowerBound_le {segs : List BracketSegment}
    (hwf : segs.all segWF = true) (hc : contiguous segs = true) :
    ∀ t ∈ segs, firstLowerBound segs ≤ t.lowerBound := by
  induction segs with
  | nil => intro t ht; cases ht
  | cons a l ih =>
      intro t ht
      rcases List.mem_cons.mp ht with rfl | htl
      · exact le_rfl
      · cases l with
        | nil => cases htl
        | cons b l' =>
            have hub : a.upperBound = some (firstLowerBound (b :: l')) :=
              contiguous_head_ub hc (by simp)
            have hwa : segWF a = true := by
              simp only [List.all_cons, Bool.and_eq_true] at hwf
              exact hwf.1
            have hwl : (b :: l').all segWF = true := by
              simp only [List.all_cons, Bool.and_eq_true] at hwf ⊢
              exact ⟨hwf.2.1, hwf.2.2⟩
            have h1 : a.lowerBound ≤ firstLowerBound (b :: l') :=
              (segWF_spec hwa).2.2.2 _ hub
            have h2 : firstLowerBound (b :: l') ≤ t.lowerBound :=
              ih hwl (contiguous_tail hc) t htl
            exact (h1.trans h2)

/-- In a well-formed table, income at or below the first lower bound incurs
zero tax. -/
theorem evaluateTax_eq_zero_of_le_first {segs : List BracketSegment}
    (hwf : segs.all segWF = true) (hc : contiguous segs = true) {x : ℚ}
    (hx : x ≤ firstLowerBound segs) : evaluateTax segs x = 0 := by
  unfold evaluateTax
  refine List.sum_eq_zero ?_
  intro q hq
  rcases List.mem_map.mp hq with ⟨s, hs, rfl⟩
  rw [portionInSegment_eq_zero s (hx.trans (firstLowerBound_le hwf hc s hs)),
    zero_mul]

/-- Income clamped at zero incurs zero tax in any table whose segments all
have non-negative lower bounds. -/
theorem evaluateTax_eq_zero_of_nonneg_bounds {segs : List BracketSegment}
    (hlo : ∀ s ∈ segs, 0 ≤ s.lowerBound) : evaluateTax segs 0 = 0 := by
  unfold evaluateTax
  refine List.sum_eq_zero ?_
  intro q hq
  rcases List.mem_map.mp hq with ⟨s, hs, rfl⟩
  rw [portionInSegment_eq_zero s (hlo s hs), zero_mul]

/-! ### Claim theorems -/

/-- C1: on the spec's two-segment table the bracket evaluator accumulates
each segment's portion of the income times that segment's marginal rate —
`50000 * 0.15 + 25000 * 0.26 = 14000` at income 75000 — and not the income
times the top rate. -/
theorem evaluateTax_progressive_accumulation_c1 :
    evaluateTax demoSegs 75000 = 50000 * (15 / 100) + 25000 * (26 / 100) ∧
      evaluateTax demoSegs 75000 = 14000 ∧
      evaluateTax demoSegs 75000 ≠ 75000 * (26 / 100) := by
  refine ⟨?_, ?_, ?_⟩ <;>
    norm_num [evaluateTax, demoSegs, portionInSegment, clampQ]

/-- C2: for every well-formed bracket table the gross tax is monotonically
non-decreasing in income, and is zero whenever the income is at or below
the lowest segment's lower bound; in particular it is zero at income 0 when
the lowest bracket starts at 0. -/
theorem evaluateTax_monotone_zero_c2 (segs : List BracketSegment) (x y : ℚ)
    (hwf : tableWF segs = true) :
    (x ≤ y → evaluateTax segs x ≤ evaluateTax segs y) ∧
      (x ≤ firstLowerBound segs → evaluateTax segs x = 0) ∧
      (firstLowerBound segs = 0 → evaluateTax segs 0 = 0) := by
  unfold tableWF at hwf
  simp only [Bool.and_eq_true] at hwf
  obtain ⟨⟨-, hall⟩, hc⟩ := hwf
  refine ⟨fun hxy => ?_, fun hx => ?_, fun h0 => ?_⟩
  · refine evaluateTax_mono_of_rates ?_ hxy
    intro s hs
    exact (segWF_spec (by simpa using List.all_eq_true.mp hall s hs)).2.1
  · exact evaluateTax_eq_zero_of_le_first hall hc hx
  · exact evaluateTax_eq_zero_of_le_first hall hc (le_of_eq h0.symm)

/-- Witness for C2 on the spec's demonstration table at incomes 0 and
75000. -/
theorem evaluateTax_monotone_zero_c2_witness :
    (evaluateTax demoSegs 0 ≤ evaluateTax demoSegs 75000) ∧
      evaluateTax demoSegs 0 = 0 :=
  have h := evaluateTax_monotone_zero_c2 demoSegs 0 75000
    (by norm_num [tableWF, demoSegs, segWF, contiguous, List.all,
      List.isEmpty])
  ⟨h.1 (by norm_num), h.2.1 (by norm_num [demoSegs, firstLowerBound])⟩

/-- C3: indexing a table by rate `r` over `n` years multiplies every lower
bound, every finite upper bound and the base credit by `(1+r)^n`, keeps an
unbounded top limit unbounded (`Option.map` sends `none` to `none`), and at
`n = 0` returns the table unchanged, bound for bound. -/
theorem indexTable_scaling_c3 (t : BracketTable) (r : ℚ) (n : ℕ) :
    (indexTable t r n).segments.map (fun s => s.lowerBound)
        = t.segments.map (fun s => s.lowerBound * (1 + r) ^ n) ∧
      (indexTable t r n).segments.map (fun s => s.upperBound)
        = t.segments.map
            (fun s => s.upperBound.map (fun u => u * (1 + r) ^ n)) ∧
      (indexTable t r n).baseCredit = t.baseCredit * (1 + r) ^ n ∧
      indexTable t r 0 = t := by
  refine ⟨?_, ?_, rfl, ?_⟩
  · simp [indexTable, indexSegment]
  · simp [indexTable, indexSegment]
  · have hseg : ∀ s : BracketSegment, indexSegment r 0 s = s := by
      intro s
      cases s with
      | mk lo ub rate => cases ub <;> simp [indexSegment]
    have hmap : ∀ segs : List BracketSegment,
        List.map (indexSegment r 0) segs = segs := by
      intro segs
      induction segs with
      | nil => rfl
      | cons a l ih => simp [hseg a, ih]
    cases t with
    | mk segs credit creditRate => simp [indexTable, hmap]

/-- C4: on non-negative gross federal tax the Quebec abatement multiplies
by `1 - 0.165`, every other jurisdiction is untouched, the adjusted tax
never exceeds the gross tax, and `14000` becomes `11690` for Quebec. -/
theorem applyAbatement_c4 (x : ℚ) (hx : 0 ≤ x) :
    applyAbatement x ProvinceCode.QC = x * (1 - 165 / 1000) ∧
      (∀ j : ProvinceCode, j ≠ ProvinceCode.QC → applyAbatement x j = x) ∧
      (∀ j : ProvinceCode, applyAbatement x j ≤ x) ∧
      applyAbatement 14000 ProvinceCode.QC = 14000 * (835 / 1000) := by
  refine ⟨rfl, fun j hj => ?_, fun j => ?_, by
    norm_num [applyAbatement, abatementRate]⟩
  · simp [applyAbatement, hj]
  · by_cases hj : j = ProvinceCode.QC
    · subst hj
      have hform : applyAbatement x ProvinceCode.QC = x * (835 / 1000) := by
        norm_num [applyAbatement, abatementRate]
      rw [hform]
      nlinarith [hx]
    · simp [applyAbatement, hj]

/-- Witness for C4 at gross federal tax 14000. -/
theorem applyAbatement_c4_witness :
    applyAbatement 14000 ProvinceCode.QC = 14000 * (835 / 1000) ∧
      applyAbatement 14000 ProvinceCode.ON = 14000 ∧
      applyAbatement 14000 ProvinceCode.QC ≤ 14000 :=
  have h := applyAbatement_c4 14000 (by norm_num)
  ⟨h.2.2.2, h.2.1 ProvinceCode.ON (by simp), h.2.2.1 ProvinceCode.QC⟩

/-- C5: credit application is `max(0, tax - credit)`: never negative,
exactly `tax - credit` when the credit fits under the tax, and on the
spec's concrete figures `11690 - 2000 = 9690` while an oversized credit
floors at `0`. -/
theorem applyCredit_c5 (tax credit : ℚ) (htax : 0 ≤ tax)
    (hcredit : 0 ≤ credit) :
    applyCredit tax credit = max 0 (tax - credit) ∧
      0 ≤ applyCredit tax credit ∧
      (credit ≤ tax → applyCredit tax credit = tax - credit) ∧
      applyCredit 11690 2000 = 9690 ∧ applyCredit 11690 20000 = 0 := by
  refine ⟨rfl, le_max_left 0 _, fun hle => ?_, by norm_num [applyCredit],
    by norm_num [applyCredit]⟩
  exact max_eq_right (sub_nonneg.mpr hle)

/-- Witness for C5 at tax 11690 and credit 2000. -/
theorem applyCredit_c5_witness :
    0 ≤ applyCredit 11690 2000 ∧ applyCredit 11690 2000 = 11690 - 2000 :=
  have h := applyCredit_c5 11690 2000 (by norm_num) (by norm_num)
  ⟨h.2.1, h.2.2.1 (by norm_num)⟩

/-- C7: the effective rate is `finalTax / income` for positive income and
`0` for zero or non-positive income, so division by zero is guarded. -/
theorem effectiveRate_c7 (finalTax income : ℚ) :
    (0 < income → effectiveRate finalTax income = finalTax / income) ∧
      effectiveRate finalTax 0 = 0 ∧
      (income ≤ 0 → effectiveRate finalTax income = 0) := by
  refine ⟨fun h => ?_, ?_, fun h => ?_⟩
  · simp [effectiveRate, h]
  · simp [effectiveRate]
  · simp [effectiveRate, not_lt.mpr h]

/-- C8: negative or non-finite income is clamped to zero by the federal
pipeline, which then returns zero tax (and, being a total function, never
throws): for any table of well-formed segments, inflation rate at least
`-1`, and non-negative credit, the result is zero. -/
theorem getFederalTaxAmount_clamp_c8 (j : ProvinceCode) (t : BracketTable)
    (r : ℚ) (n : ℕ) (credit q : ℚ) (hwf : t.segments.all segWF = true)
    (hr : -1 ≤ r) (hcredit : 0 ≤ credit) (hq : q ≤ 0) :
    sanitizeIncome (NumInput.fin q) = 0 ∧
      getFederalTaxAmount j t (NumInput.fin q) r n credit = 0 ∧
      getFederalTaxAmount j t NumInput.nonfinite r n credit = 0 := by
  have hsan : sanitizeIncome (NumInput.fin q) = 0 := by
    simp [sanitizeIncome, max_eq_left hq]
  have hpow : (0 : ℚ) ≤ (1 + r) ^ n := pow_nonneg (by linarith) n
  have hzero : evaluateTax (indexTable t r n).segments 0 = 0 := by
    refine evaluateTax_eq_zero_of_nonneg_bounds ?_
    intro s hs
    rcases List.mem_map.mp hs with ⟨s₀, hs₀, rfl⟩
    have h₀ : 0 ≤ s₀.lowerBound :=
      (segWF_spec (by simpa using List.all_eq_true.mp hwf s₀ hs₀)).1
    exact mul_nonneg h₀ hpow
  have habate : ∀ j' : ProvinceCode, applyAbatement 0 j' = 0 := by
    intro j'
    by_cases hj : j' = ProvinceCode.QC <;> simp [applyAbatement, hj]
  have hfinal : applyCredit 0 credit = 0 :=
    max_eq_left (by linarith)
  refine ⟨hsan, ?_, ?_⟩
  · unfold getFederalTaxAmount
    rw [hsan, hzero, habate, hfinal]
  · unfold getFederalTaxAmount
    show applyCredit
      (applyAbatement (evaluateTax (indexTable t r n).segments 0) j)
      credit = 0
    rw [hzero, habate, hfinal]

/-- Witness for C8: NaN-like and negative income both yield zero federal
tax on the demonstration table. -/
theorem getFederalTaxAmount_clamp_c8_witness :
    sanitizeIncome (NumInput.fin (-1000)) = 0 ∧
      getFederalTaxAmount ProvinceCode.ON
        { segments := demoSegs, baseCredit := 0, baseCreditRate := 0 }
        (NumInput.fin (-1000)) 0 0 0 = 0 ∧
      getFederalTaxAmount ProvinceCode.ON
        { segments := demoSegs, baseCredit := 0, baseCreditRate := 0 }
        NumInput.nonfinite 0 0 0 = 0 :=
  getFederalTaxAmount_clamp_c8 ProvinceCode.ON
    { segments := demoSegs, baseCredit := 0, baseCreditRate := 0 }
    0 0 0 (-1000)
    (by norm_num [demoSegs, segWF, List.all])
    (by norm_num) (by norm_num) (by norm_num)

/-- Unpack the boolean containment test. -/
theorem segContains_spec {s : BracketSegment} {income : ℚ}
    (h : segContains s income = true) :
    s.lowerBound < income ∧ ∀ u, s.upperBound = some u → income ≤ u := by
  unfold segContains at h
  cases hub : s.upperBound with
  | none =>
      rw [hub] at h
      simp only [Bool.and_eq_true, decide_eq_true_eq] at h
      exact ⟨h.1, fun u hu => by simp at hu⟩
  | some ub =>
      rw [hub] at h
      simp only [Bool.and_eq_true, decide_eq_true_eq] at h
      refine ⟨h.1, fun u hu => ?_⟩
      have h2 : ub = u := by injection hu
      exact h2 ▸ h.2

/-- When a tail segment contains the income, the head segment cannot: its
upper bound, being the tail's first lower bound, already lies below the
income. -/
theorem segContains_head_false {a : BracketSegment} {l : List BracketSegment}
    {income : ℚ} (hwf : (a :: l).all segWF = true)
    (hc : contiguous (a :: l) = true) {s : BracketSegment} (hs : s ∈ l)
    (hcon : segContains s income = true) : segContains a income = false := by
  have hl : l ≠ [] := List.ne_nil_of_mem hs
  have hub : a.upperBound = some (firstLowerBound l) := contiguous_head_ub hc hl
  have hwl : l.all segWF = true := by
    simp only [List.all_cons, Bool.and_eq_true] at hwf
    exact hwf.2
  have h1 : firstLowerBound l ≤ s.lowerBound :=
    firstLowerBound_le hwl (contiguous_tail hc) s hs
  have h2 : firstLowerBound l < income := lt_of_le_of_lt h1 (segContains_spec hcon).1
  have h3 : ¬(income ≤ firstLowerBound l) := not_le.mpr h2
  simp [segContains, hub, h3]

/-- In a well-formed table the marginal-rate lookup returns the rate of any
segment containing the income. -/
theorem marginalRate_eq_of_contains {segs : List BracketSegment} {income : ℚ}
    (hwf : segs.all segWF = true) (hc : contiguous segs = true)
    {s : BracketSegment} (hs : s ∈ segs) (hcon : segContains s income = true) :
    marginalRate segs income = s.marginalRate := by
  induction segs with
  | nil => cases hs
  | cons a l ih =>
      rcases List.mem_cons.mp hs with rfl | hsl
      · unfold marginalRate
        rw [List.find?_cons_of_pos (p := fun t => segContains t income) _
          hcon]
      · have hfalse : segContains a income = false :=
          segContains_head_false hwf hc hsl hcon
        have hwl : l.all segWF = true := by
          simp only [List.all_cons, Bool.and_eq_true] at hwf
          exact hwf.2
        have hrec : marginalRate l income = s.marginalRate :=
          ih hwl (contiguous_tail hc) hsl
        have hnone : l.find? (fun t => segContains t income) ≠ none := by
          intro hfind
          exact absurd hcon
            (by simpa using List.find?_eq_none.mp hfind s hsl)
        unfold marginalRate at hrec ⊢
        rw [List.find?_cons_of_neg _ (by simp [hfalse])]
        cases hfind : l.find? (fun t => segContains t income) with
        | none => exact absurd hfind hnone
        | some t => rw [hfind] at hrec; exact hrec

/-- At most one segment of a well-formed table contains a given income. -/
theorem segContains_unique {segs : List BracketSegment} {income : ℚ}
    (hwf : segs.all segWF = true) (hc : contiguous segs = true)
    {s t : BracketSegment} (hs : s ∈ segs) (ht : t ∈ segs)
    (hcs : segContains s income = true) (hct : segContains t income = true) :
    s = t := by
  induction segs with
  | nil => cases hs
  | cons a l ih =>
      have hwl : l.all segWF = true := by
        simp only [List.all_cons, Bool.and_eq_true] at hwf
        exact hwf.2
      rcases List.mem_cons.mp hs with rfl | hsl
      · rcases List.mem_cons.mp ht with rfl | htl
        · rfl
        · exact absurd hcs
            (by simp [segContains_head_false hwf hc htl hct])
      · rcases List.mem_cons.mp ht with rfl | htl
        · exact absurd hct
            (by simp [segContains_head_false hwf hc hsl hcs])
        · exact ih hwl (contiguous_tail hc) hsl htl

/-- Below the lowest bound no segment contains the income, so the lookup
falls back to the first segment's rate. -/
theorem marginalRate_below_first {segs : List BracketSegment} {income : ℚ}
    (hwf : segs.all segWF = true) (hc : contiguous segs = true)
    (hx : income ≤ firstLowerBound segs) :
    marginalRate segs income = firstRate segs := by
  have hnone : segs.find? (fun t => segContains t income) = none := by
    refine List.find?_eq_none.mpr ?_
    intro t ht
    have h1 : firstLowerBound segs ≤ t.lowerBound :=
      firstLowerBound_le hwf hc t ht
    have h2 : ¬(t.lowerBound < income) := not_lt.mpr (hx.trans h1)
    simp [segContains, h2]
  unfold marginalRate
  rw [hnone]

/-- C6: in every well-formed table the marginal-rate function returns the
rate of the (unique) segment whose half-open interval
`lowerBound < income <= upperBound` contains the income, and the first
segment's rate when the income is at or below the lowest bound; on the
spec's demonstration table it returns 0.26 at 75000 and 0.15 at 40000. -/
theorem marginalRate_c6 (segs : List BracketSegment) (income : ℚ)
    (hwf : tableWF segs = true) :
    (∀ s ∈ segs, segContains s income = true →
        marginalRate segs income = s.marginalRate) ∧
      (∀ s ∈ segs, ∀ t ∈ segs, segContains s income = true →
        segContains t income = true → s = t) ∧
      (income ≤ firstLowerBound segs →
        marginalRate segs income = firstRate segs) ∧
      marginalRate demoSegs 75000 = 26 / 100 ∧
      marginalRate demoSegs 40000 = 15 / 100 := by
  unfold tableWF at hwf
  simp only [Bool.and_eq_true] at hwf
  obtain ⟨⟨-, hall⟩, hc⟩ := hwf
  refine ⟨fun s hs hcon => marginalRate_eq_of_contains hall hc hs hcon,
    fun s hs t ht hcs hct => segContains_unique hall hc hs ht hcs hct,
    fun hx => marginalRate_below_first hall hc hx, ?_, ?_⟩ <;>
    norm_num [marginalRate, demoSegs, segContains, List.find?, firstRate]

/-- Witness for C6 on the demonstration table at income 75000, contained in
the top segment. -/
theorem marginalRate_c6_witness :
    marginalRate demoSegs 75000
        = ({ lowerBound := 50000, upperBound := none,
             marginalRate := 26 / 100 } : BracketSegment).marginalRate ∧
      marginalRate demoSegs 40000 = 15 / 100 :=
  have h := marginalRate_c6 demoSegs 75000
    (by norm_num [tableWF, demoSegs, segWF, contiguous, List.all,
      List.isEmpty])
  ⟨h.1 _ (by simp [demoSegs]) (by norm_num [segContains]), h.2.2.2.2⟩

/-- Every segment before a given one in a well-formed contiguous chain has
a finite upper bound at or below the given segment's lower bound. -/
theorem ub_le_of_mem_left {l₁ : List BracketSegment} {s : BracketSegment}
    {l₂ : List BracketSegment} (hwf : (l₁ ++ s :: l₂).all segWF = true)
    (hc : contiguous (l₁ ++ s :: l₂) = true) :
    ∀ t ∈ l₁, ∃ u, t.upperBound = some u ∧ u ≤ s.lowerBound := by
  induction l₁ with
  | nil => intro t ht; cases ht
  | cons a l ih =>
      intro t ht
      have hwl : (l ++ s :: l₂).all segWF = true := by
        simp only [List.cons_append, List.all_cons, Bool.and_eq_true] at hwf
        exact hwf.2
      have hcl : contiguous (l ++ s :: l₂) = true :=
        contiguous_tail (by simpa using hc)
      rcases List.mem_cons.mp ht with rfl | htl
      · have hne : l ++ s :: l₂ ≠ [] := by simp
        have hub : t.upperBound = some (firstLowerBound (l ++ s :: l₂)) :=
          contiguous_head_ub (by simpa using hc) hne
        refine ⟨firstLowerBound (l ++ s :: l₂), hub, ?_⟩
        exact firstLowerBound_le hwl hcl s (by simp)
      · exact ih hwl hcl t htl

/-- Every segment after a bounded one in a well-formed contiguous chain has
a lower bound at or above the bounded segment's upper limit. -/
theorem lb_ge_of_mem_right {s : BracketSegment} {b : ℚ}
    {l₂ : List BracketSegment} (hub : s.upperBound = some b)
    (hwf : (s :: l₂).all segWF = true) (hc : contiguous (s :: l₂) = true) :
    ∀ t ∈ l₂, b ≤ t.lowerBound := by
  intro t ht
  have hne : l₂ ≠ [] := List.ne_nil_of_mem ht
  have hub' : s.upperBound = some (firstLowerBound l₂) :=
    contiguous_head_ub hc hne
  have hb : b = firstLowerBound l₂ := by
    rw [hub] at hub'
    injection hub'
  have hwl : l₂.all segWF = true := by
    simp only [List.all_cons, Bool.and_eq_true] at hwf
    exact hwf.2
  rw [hb]
  exact firstLowerBound_le hwl (contiguous_tail hc) t ht

/-- C9: for adjacent segments meeting at a shared boundary `b`, with the
earlier segment running from `p` to `b` at rate `ρ`, the tax at the
boundary exceeds the tax at the segment's start by exactly
`(b - p) * ρ` — the piecewise accumulation is continuous, with no jump. -/
theorem evaluateTax_boundary_c9 (l₁ l₂ : List BracketSegment) (p b ρ : ℚ)
    (hwf : tableWF (l₁ ++
      { lowerBound := p, upperBound := some b, marginalRate := ρ }
        :: l₂) = true) :
    evaluateTax (l₁ ++
        { lowerBound := p, upperBound := some b, marginalRate := ρ }
          :: l₂) b
      - evaluateTax (l₁ ++
          { lowerBound := p, upperBound := some b, marginalRate := ρ }
            :: l₂) p
      = (b - p) * ρ := by
  set s : BracketSegment :=
    { lowerBound := p, upperBound := some b, marginalRate := ρ } with hs
  unfold tableWF at hwf
  simp only [Bool.and_eq_true] at hwf
  obtain ⟨⟨-, hall⟩, hc⟩ := hwf
  have hswf : segWF s = true := by
    have := List.all_eq_true.mp hall s (by simp)
    simpa using this
  have hpb : p ≤ b := (segWF_spec hswf).2.2.2 b rfl
  have hall₂ : (s :: l₂).all segWF = true := by
    have h1 := List.all_eq_true.mp hall
    refine List.all_eq_true.mpr ?_
    intro t ht
    exact h1 t (by simp [List.mem_append.mpr (Or.inr ht)])
  have hc₂ : contiguous (s :: l₂) = true := contiguous_append_right hc
  have hleft := ub_le_of_mem_left hall hc
  have hright := lb_ge_of_mem_right (s := s) rfl hall₂ hc₂
  have hmapeq :
      l₁.map (fun t => portionInSegment t b * t.marginalRate)
        = l₁.map (fun t => portionInSegment t p * t.marginalRate) := by
    refine List.map_congr_left ?_
    intro t ht
    obtain ⟨u, hub, hup⟩ := hleft t ht
    rw [portionInSegment_saturate t hub (by simpa using hup.trans hpb),
      portionInSegment_saturate t hub (by simpa using hup)]
  have hr0 : ∀ x : ℚ, x ≤ b →
      (l₂.map (fun t => portionInSegment t x * t.marginalRate)).sum = 0 := by
    intro x hx
    refine List.sum_eq_zero ?_
    intro q hq
    rcases List.mem_map.mp hq with ⟨t, ht, rfl⟩
    rw [portionInSegment_eq_zero t (hx.trans (by simpa using hright t ht)),
      zero_mul]
  have hsb : portionInSegment s b = b - p := by
    rw [portionInSegment_saturate s rfl le_rfl]
    simp [hs, max_eq_right hpb]
  have hsp : portionInSegment s p = 0 :=
    portionInSegment_eq_zero s (by simp [hs])
  have hrate : s.marginalRate = ρ := by rw [hs]
  rw [evaluateTax, evaluateTax, List.map_append, List.map_append,
    List.sum_append, List.sum_append, List.map_cons, List.map_cons,
    List.sum_cons, List.sum_cons, hmapeq, hr0 b le_rfl, hr0 p hpb,
    hsb, hsp, hrate]
  ring

/-- Witness for C9: on the demonstration table the boundary 50000 between
the two segments satisfies `tax(50000) - tax(0) = (50000 - 0) * 0.15`. -/
theorem evaluateTax_boundary_c9_witness :
    evaluateTax demoSegs 50000 - evaluateTax demoSegs 0
      = (50000 - 0) * (15 / 100) :=
  evaluateTax_boundary_c9 []
    [{ lowerBound := 50000, upperBound := none, marginalRate := 26 / 100 }]
    0 50000 (15 / 100)
    (by norm_num [tableWF, demoSegs, segWF, contiguous, List.all,
      List.isEmpty])

/-! ### The income-tax request validation middleware -/

/-- A JSON value, as far as the income-tax request schema distinguishes
them: a number, a string, or anything else (boolean, array, object,
null). -/
inductive JVal
  | num (q : ℚ)
  | str (s : String)
  | other
  deriving DecidableEq, Repr

/-- A request body for the income-tax endpoint: the five properties the
schema declares (each possibly absent), plus the names of any additional
properties the caller supplied. -/
structure IncomeTaxBody where
  grossIncome : Option JVal
  province : Option JVal
  year : Option JVal
  inflationRate : Option JVal
  yearsToInflate : Option JVal
  extras : List String
  deriving DecidableEq, Repr

/-- The 13-code province enumeration of `incomeTaxRequestSchema`
(`src/api/src/schemas/index.ts`). -/
def provinceEnum : List String :=
  ["AB", "BC", "MB", "NB", "NL", "NS", "NT", "NU", "ON", "PE", "QC", "SK",
    "YT"]

/-- Is the value a number within `[lo, hi]`? -/
def numInRange (v : JVal) (lo hi : ℚ) : Bool :=
  match v with
  | JVal.num q => decide (lo ≤ q) && decide (q ≤ hi)
  | _ => false

/-- An optional schema property: absent, or a number within range. -/
def optNumInRange (v : Option JVal) (lo hi : ℚ) : Bool :=
  match v with
  | none => true
  | some w => numInRange w lo hi

/-- Embedded from `incomeTaxRequestSchema` (`src/api/src/schemas/index.ts`)
as compiled by the Ajv instance of `src/api/src/middleware/validation.ts`,
which is constructed with `removeAdditional: true`: additional properties
are stripped from the body during validation instead of failing it, so
`extras` plays no role in validity.  `grossIncome` must be a number in
`[0, 10000000]`, `province` a string of the 13-code enumeration, and the
optional `year`, `inflationRate` and `yearsToInflate` numbers in
`[2000, 2030]`, `[-0.1, 0.3]` and `[0, 50]`. -/
def incomeTaxBodyValid (b : IncomeTaxBody) : Bool :=
  (match b.grossIncome with
    | some v => numInRange v 0 10000000
    | none => false) &&
  (match b.province with
    | some (JVal.str s) => provinceEnum.contains s
    | _ => false) &&
  optNumInRange b.year 2000 2030 &&
  optNumInRange b.inflationRate (-(1 / 10)) (3 / 10) &&
  optNumInRange b.yearsToInflate 0 50

/-- Outcome of the validation middleware: a 400 response carrying an error
code, or the (stripped) body forwarded to the calculation controller. -/
inductive MiddlewareOutcome
  | rejected400 (code : String)
  | forwarded (b : IncomeTaxBody)
  deriving DecidableEq, Repr

/-- Embedded from `validateRequest`
(`src/api/src/middleware/validation.ts`): run the compiled Ajv validator on
the body (which, under `removeAdditional: true`, first strips the
additional properties); on failure respond 400 with code
`VALIDATION_ERROR`, otherwise call `next()` so the calculation controller
receives the stripped body. -/
def validateRequest (b : IncomeTaxBody) : MiddlewareOutcome :=
  if incomeTaxBodyValid b
  then MiddlewareOutcome.forwarded { b with extras := [] }
  else MiddlewareOutcome.rejected400 "VALIDATION_ERROR"

/-- The claim's reading of a valid `grossIncome`: present, numeric, and in
`[0, 10000000]`. -/
def GrossOK (b : IncomeTaxBody) : Prop :=
  ∃ q : ℚ, b.grossIncome = some (JVal.num q) ∧ 0 ≤ q ∧ q ≤ 10000000

/-- The claim's reading of a valid `province`: present and one of the 13
codes. -/
def ProvinceOK (b : IncomeTaxBody) : Prop :=
  ∃ s : String, b.province = some (JVal.str s) ∧ s ∈ provinceEnum

/-- The claim's reading of a valid optional numeric property. -/
def OptOK (v : Option JVal) (lo hi : ℚ) : Prop :=
  ∀ w, v = some w → ∃ q : ℚ, w = JVal.num q ∧ lo ≤ q ∧ q ≤ hi

/-- The boolean grossIncome check agrees with its reading. -/
theorem grossIncome_check_iff (b : IncomeTaxBody) :
    (match b.grossIncome with
      | some v => numInRange v 0 10000000
      | none => false) = true ↔ GrossOK b := by
  unfold GrossOK
  cases hg : b.grossIncome with
  | none => simp
  | some v =>
      cases v with
      | num q => simp [numInRange, and_assoc]
      | str s => simp [numInRange]
      | other => simp [numInRange]

/-- The boolean province check agrees with its reading. -/
theorem province_check_iff (b : IncomeTaxBody) :
    (match b.province with
      | some (JVal.str s) => provinceEnum.contains s
      | _ => false) = true ↔ ProvinceOK b := by
  unfold ProvinceOK
  cases hp : b.province with
  | none => simp
  | some v =>
      cases v with
      | num q => simp
      | str s => simp [List.elem_iff]
      | other => simp

/-- The boolean optional-number check agrees with its reading. -/
theorem optNumInRange_iff (v : Option JVal) (lo hi : ℚ) :
    optNumInRange v lo hi = true ↔ OptOK v lo hi := by
  unfold OptOK
  cases v with
  | none => simp [optNumInRange]
  | some w =>
      cases w with
      | num q => simp [optNumInRange, numInRange, and_assoc]
      | str s => simp [optNumInRange, numInRange]
      | other => simp [optNumInRange, numInRange]

/-- The compiled validator agrees with the claim's enumerated conditions,
extras excluded. -/
theorem incomeTaxBodyValid_iff (b : IncomeTaxBody) :
    incomeTaxBodyValid b = true ↔
      GrossOK b ∧ ProvinceOK b ∧ OptOK b.year 2000 2030 ∧
        OptOK b.inflationRate (-(1 / 10)) (3 / 10) ∧
        OptOK b.yearsToInflate 0 50 := by
  unfold incomeTaxBodyValid
  simp only [Bool.and_eq_true]
  rw [grossIncome_check_iff, province_check_iff, optNumInRange_iff,
    optNumInRange_iff, optNumInRange_iff]
  tauto

/-- C10 (amended): the middleware responds 400 with `VALIDATION_ERROR`
(never reaching the calculation controller) if and only if `grossIncome`
is missing, non-numeric or outside `[0, 10000000]`, `province` is missing
or outside the 13-code enumeration, or a supplied `year`, `inflationRate`
or `yearsToInflate` is non-numeric or out of range; additional properties
are stripped by Ajv's `removeAdditional` and never influence the outcome;
and any body the middleware forwards carries a numeric `grossIncome` in
`[0, 10000000]`, so negative or non-finite income cannot reach the core
through this endpoint. -/
theorem validateRequest_c10 (b : IncomeTaxBody) :
    (validateRequest b = MiddlewareOutcome.rejected400 "VALIDATION_ERROR"
        ↔ ¬(GrossOK b ∧ ProvinceOK b ∧ OptOK b.year 2000 2030 ∧
            OptOK b.inflationRate (-(1 / 10)) (3 / 10) ∧
            OptOK b.yearsToInflate 0 50)) ∧
      (∀ es : List String,
        validateRequest { b with extras := es } = validateRequest b) ∧
      (∀ b', validateRequest b = MiddlewareOutcome.forwarded b' →
        ∃ q : ℚ, b'.grossIncome = some (JVal.num q) ∧ 0 ≤ q ∧
          q ≤ 10000000) := by
  refine ⟨?_, ?_, ?_⟩
  · rw [← incomeTaxBodyValid_iff]
    unfold validateRequest
    by_cases hv : incomeTaxBodyValid b = true
    · simp [hv]
    · simp only [Bool.not_eq_true] at hv
      simp [hv]
  · intro es
    cases b with
    | mk g p y i n e => rfl
  · intro b' hfwd
    unfold validateRequest at hfwd
    by_cases hv : incomeTaxBodyValid b = true
    · rw [if_pos hv] at hfwd
      have hb' : b' = { b with extras := [] } := by
        injection hfwd with h
        exact h.symm
      obtain ⟨q, hq, h0, h1⟩ := ((incomeTaxBodyValid_iff b).mp hv).1
      exact ⟨q, by rw [hb']; exact hq, h0, h1⟩
    · rw [if_neg hv] at hfwd
      cases hfwd

/-- A body that is valid except for an additional property
`"injectedField"`. -/
def extraPropBody : IncomeTaxBody :=
  { grossIncome := some (JVal.num 50000)
    province := some (JVal.str "ON")
    year := none
    inflationRate := none
    yearsToInflate := none
    extras := ["injectedField"] }

/-- C10 counterexample to the claim as stated: a body carrying an extra
property is not answered with 400 — `removeAdditional: true` silently
strips the property and the request is forwarded to the calculator. -/
theorem validateRequest_extra_c10_cex :
    extraPropBody.extras = ["injectedField"] ∧
      validateRequest extraPropBody
        ≠ MiddlewareOutcome.rejected400 "VALIDATION_ERROR" := by
  refine ⟨rfl, ?_⟩
  have hv : incomeTaxBodyValid extraPropBody = true := by
    norm_num [incomeTaxBodyValid, extraPropBody, numInRange, optNumInRange,
      provinceEnum, List.contains]
  simp [validateRequest, hv]

end TaxCA
